import Mathlib

/-!
Verification of the decision-and-execution core of the psi-freq scalper
trading system, shallowly embedded from the Python sources.

Conventions of the embedding:
* Python floats are modelled as exact rationals (`ℚ`); the one place the
  source takes a square root (`np.std` inside the wave-strength component)
  is modelled in `ℝ` via `Real.sqrt`.
* Python dictionaries keyed by strings are modelled as functions
  `String → Option _`; `datetime` timestamps carry no information used by
  any computation and are omitted from the records.
* Division in `ℚ`/`ℝ` is total with `x / 0 = 0`; the source never divides
  by zero on the inputs covered by the theorems below.
-/

namespace PsiFreqScalper

/-- `OrderSide` from `core/data_structures.py`. -/
inductive OrderSide
  | buy
  | sell
deriving DecidableEq

/-- `OrderType` from `core/data_structures.py`. -/
inductive OrderType
  | market
  | limit
  | stopLimit
deriving DecidableEq

/-- `PositionSide` from `core/data_structures.py`. -/
inductive PositionSide
  | long
  | short
deriving DecidableEq

/-- `Position` dataclass from `core/data_structures.py` (timestamp omitted;
`pyramiding_level` and `unrealized_pnl` keep their Python defaults). -/
structure Position where
  symbol : String
  side : PositionSide
  entryPrice : ℚ
  size : ℚ
  leverage : ℚ
  stopLoss : ℚ
  takeProfit : ℚ
  pyramidingLevel : ℕ := 0
  unrealizedPnl : ℚ := 0
deriving DecidableEq

/-- `Order` dataclass from `core/data_structures.py` (timestamp and
`order_id` omitted; `leverage` keeps its Python default `1`). -/
structure Order where
  symbol : String
  side : OrderSide
  orderType : OrderType
  size : ℚ
  price : Option ℚ := none
  stopPrice : Option ℚ := none
  leverage : ℚ := 1
deriving DecidableEq

/-- `Trade` dataclass from `core/data_structures.py` (timestamp omitted;
`commission` and `pnl` keep their Python defaults). -/
structure Trade where
  tradeId : String
  symbol : String
  side : OrderSide
  price : ℚ
  size : ℚ
  commission : ℚ := 0
  pnl : ℚ := 0
deriving DecidableEq

/-- The mutable state of `PaperTradingExchange` from
`exchanges/paper_trading.py`: cash balance, starting balance, the
symbol-keyed position map, the id-keyed pending-order map, the trade log and
the order-id counter (the candle cache is kept out of the state; the current
market price it yields through `get_current_price` is passed explicitly to
the functions below). -/
structure ExchangeState where
  balance : ℚ
  initialBalance : ℚ
  positions : String → Option Position
  orders : String → Option Order
  trades : List Trade
  orderCounter : ℕ

/-- `PaperTradingExchange.__init__`. -/
def initialState (initialBalance : ℚ) : ExchangeState :=
  { balance := initialBalance
    initialBalance := initialBalance
    positions := fun _ => none
    orders := fun _ => none
    trades := []
    orderCounter := 0 }

/-- `PaperTradingExchange._calculate_pnl`. -/
def calculatePnl (position : Position) (exitPrice : ℚ) : ℚ :=
  match position.side with
  | .long => (exitPrice - position.entryPrice) * position.size
  | .short => (position.entryPrice - exitPrice) * position.size

/-- `PaperTradingExchange._open_position`: a fresh position always starts
with `stop_loss = 0.0` and `take_profit = 0.0`. -/
def openPosition (s : ExchangeState) (order : Order) (price : ℚ) : ExchangeState :=
  let position : Position :=
    { symbol := order.symbol
      side := if order.side = OrderSide.buy then PositionSide.long else PositionSide.short
      entryPrice := price
      size := order.size
      leverage := order.leverage
      stopLoss := 0
      takeProfit := 0 }
  { s with positions := fun sym => if sym = order.symbol then some position else s.positions sym }

/-- The `is_closing` test of `PaperTradingExchange._update_position`. -/
def isClosingOrder (positionSide : PositionSide) (orderSide : OrderSide) : Bool :=
  match positionSide, orderSide with
  | .long, .sell => true
  | .short, .buy => true
  | _, _ => false

/-- `PaperTradingExchange._update_position`: on an opposite-side order either
fully close (`order.size ≥ position.size`: credit the whole PnL, delete the
position) or partially close (credit the proportional PnL, shrink the size);
on a same-side order pyramid (weighted-average entry, summed size,
incremented pyramiding level).  The Python method looks the position up by
key and is only called when it exists; the `none` branch is unreachable. -/
def updatePosition (s : ExchangeState) (order : Order) (price : ℚ) : ExchangeState :=
  match s.positions order.symbol with
  | none => s
  | some position =>
    if isClosingOrder position.side order.side then
      if position.size ≤ order.size then
        let pnl := calculatePnl position price
        { s with balance := s.balance + pnl
                 positions := fun sym => if sym = order.symbol then none else s.positions sym }
      else
        let pnl := calculatePnl position price * (order.size / position.size)
        { s with balance := s.balance + pnl
                 positions := fun sym =>
                   if sym = order.symbol then some { position with size := position.size - order.size }
                   else s.positions sym }
    else
      let totalSize := position.size + order.size
      let newEntry := (position.entryPrice * position.size + price * order.size) / totalSize
      { s with positions := fun sym =>
                 if sym = order.symbol then
                   some { position with entryPrice := newEntry
                                        size := totalSize
                                        pyramidingLevel := position.pyramidingLevel + 1 }
                 else s.positions sym }

/-- `PaperTradingExchange._execute_order`: commission is 0.1% of the
notional, the required margin is `size*price/leverage`; when margin plus
commission exceed the cash balance the order is rejected and the state is
returned untouched; otherwise commission is debited, the position is opened
or updated, and a `Trade` record is appended — constructed, as in the
source, without a `pnl` argument, so it carries the dataclass default
`pnl = 0`. -/
def executeOrder (s : ExchangeState) (order : Order) (price : ℚ) : ExchangeState :=
  let commission := order.size * price * (1/1000)
  let requiredMargin := order.size * price / order.leverage
  if requiredMargin + commission > s.balance then s
  else
    let s1 : ExchangeState := { s with balance := s.balance - commission }
    let s2 : ExchangeState :=
      match s1.positions order.symbol with
      | some _ => updatePosition s1 order price
      | none => openPosition s1 order price
    let trade : Trade :=
      { tradeId := "trade_" ++ toString (s2.trades.length + 1)
        symbol := order.symbol
        side := order.side
        price := price
        size := order.size
        commission := commission }
    { s2 with trades := s2.trades ++ [trade] }

/-- The `should_close` decision of
`PaperTradingExchange.check_stop_loss_take_profit`: a non-positive
`stop_loss` or `take_profit` disables the corresponding comparison. -/
def shouldClose (position : Position) (currentPrice : ℚ) : Bool :=
  let stopHit :=
    if 0 < position.stopLoss then
      match position.side with
      | .long => decide (currentPrice ≤ position.stopLoss)
      | .short => decide (position.stopLoss ≤ currentPrice)
    else false
  let takeProfitHit :=
    if 0 < position.takeProfit then
      match position.side with
      | .long => decide (position.takeProfit ≤ currentPrice)
      | .short => decide (currentPrice ≤ position.takeProfit)
    else false
  stopHit || takeProfitHit

/-- `PaperTradingExchange.check_stop_loss_take_profit`: when a stop-loss or
take-profit level is crossed, a single market order for the whole position
size (Python `Order` defaults: no price, leverage 1) is run through
`_execute_order` at the current price; `currentPrice` stands for the
source's `self.get_current_price(symbol)`. -/
def checkStopLossTakeProfit (s : ExchangeState) (symbol : String) (currentPrice : ℚ) :
    ExchangeState :=
  match s.positions symbol with
  | none => s
  | some position =>
    if shouldClose position currentPrice then
      let closeOrder : Order :=
        { symbol := symbol
          side := match position.side with | .long => OrderSide.sell | .short => OrderSide.buy
          orderType := OrderType.market
          size := position.size }
      executeOrder s closeOrder currentPrice
    else s

/-- The `total_pnl` entry of `PaperTradingExchange.get_statistics`
(0.0 when the trade log is empty). -/
def statsTotalPnl (s : ExchangeState) : ℚ :=
  if s.trades.isEmpty then 0 else (s.trades.map Trade.pnl).sum

/-- The `total_commission` entry of `PaperTradingExchange.get_statistics`. -/
def statsTotalCommission (s : ExchangeState) : ℚ :=
  if s.trades.isEmpty then 0 else (s.trades.map Trade.commission).sum

/-- The `win_rate` entry of `PaperTradingExchange.get_statistics`: the
percentage of logged trades whose `pnl` field is positive. -/
def statsWinRate (s : ExchangeState) : ℚ :=
  if s.trades.isEmpty then 0
  else ((s.trades.filter fun t => decide (0 < t.pnl)).length : ℚ) / (s.trades.length : ℚ) * 100

/-- C3: an order whose required margin plus commission exceeds the cash
balance is rejected by `_execute_order` with no change at all to the
simulator state. -/
theorem c3_insufficient_margin_no_state_change (s : ExchangeState) (order : Order) (price : ℚ)
    (h : order.size * price / order.leverage + order.size * price * (1/1000) > s.balance) :
    executeOrder s order price = s := by
  simp only [executeOrder]
  rw [if_pos h]

def c3WOrder : Order :=
  { symbol := "BTC-USDT", side := OrderSide.buy, orderType := OrderType.market, size := 1 }

theorem c3_insufficient_margin_no_state_change_witness :
    c3WOrder.size * (1 : ℚ) / c3WOrder.leverage + c3WOrder.size * 1 * (1/1000) >
      (initialState 0).balance ∧
    executeOrder (initialState 0) c3WOrder 1 = initialState 0 :=
  ⟨by norm_num [c3WOrder, initialState],
   c3_insufficient_margin_no_state_change (initialState 0) c3WOrder 1
     (by norm_num [c3WOrder, initialState])⟩

/-- C4: an opposite-side order against an open position either fully closes
it (`order.size ≥ position.size`: the position is deleted and cash is
credited the whole side-signed `(exit − entry) × size` PnL) or partially
closes it (`order.size < position.size`: cash is credited the proportional
share `order.size / position.size` of that PnL and the position keeps its
entry price, side, leverage and pyramiding level, with only its size
reduced). -/
theorem c4_close_full_or_partial (s : ExchangeState) (order : Order) (price : ℚ)
    (position : Position)
    (hpos : s.positions order.symbol = some position)
    (hopp : (position.side = PositionSide.long ∧ order.side = OrderSide.sell) ∨
      (position.side = PositionSide.short ∧ order.side = OrderSide.buy)) :
    (position.size ≤ order.size →
      (updatePosition s order price).positions order.symbol = none ∧
      (updatePosition s order price).balance = s.balance +
        (if position.side = PositionSide.long then (price - position.entryPrice) * position.size
         else (position.entryPrice - price) * position.size)) ∧
    (order.size < position.size →
      (updatePosition s order price).positions order.symbol =
        some { position with size := position.size - order.size } ∧
      (updatePosition s order price).balance = s.balance +
        (if position.side = PositionSide.long then (price - position.entryPrice) * position.size
         else (position.entryPrice - price) * position.size) * (order.size / position.size)) := by
  refine ⟨fun hle => ?_, fun hlt => ?_⟩
  · rcases hopp with ⟨h1, h2⟩ | ⟨h1, h2⟩ <;>
      simp [updatePosition, hpos, h1, h2, isClosingOrder, hle, calculatePnl]
  · rcases hopp with ⟨h1, h2⟩ | ⟨h1, h2⟩ <;>
      simp [updatePosition, hpos, h1, h2, isClosingOrder, not_le.mpr hlt, calculatePnl]

def c4WPos : Position :=
  { symbol := "X", side := PositionSide.long, entryPrice := 100, size := 2, leverage := 1,
    stopLoss := 0, takeProfit := 0 }

def c4WState : ExchangeState :=
  { balance := 1000, initialBalance := 1000,
    positions := fun sym => if sym = "X" then some c4WPos else none,
    orders := fun _ => none, trades := [], orderCounter := 0 }

def c4WOrderFull : Order :=
  { symbol := "X", side := OrderSide.sell, orderType := OrderType.market, size := 2 }

def c4WOrderPart : Order :=
  { symbol := "X", side := OrderSide.sell, orderType := OrderType.market, size := 1 }

theorem c4_close_full_or_partial_witness :
    c4WState.positions c4WOrderFull.symbol = some c4WPos ∧
    c4WPos.size ≤ c4WOrderFull.size ∧
    (updatePosition c4WState c4WOrderFull 110).positions c4WOrderFull.symbol = none ∧
    c4WOrderPart.size < c4WPos.size ∧
    (updatePosition c4WState c4WOrderPart 110).positions c4WOrderPart.symbol =
      some { c4WPos with size := c4WPos.size - c4WOrderPart.size } := by
  have hmem : c4WState.positions "X" = some c4WPos := by simp [c4WState]
  have hfull := c4_close_full_or_partial c4WState c4WOrderFull 110 c4WPos hmem
    (Or.inl ⟨rfl, rfl⟩)
  have hpart := c4_close_full_or_partial c4WState c4WOrderPart 110 c4WPos hmem
    (Or.inl ⟨rfl, rfl⟩)
  refine ⟨hmem, by norm_num [c4WPos, c4WOrderFull],
    (hfull.1 (by norm_num [c4WPos, c4WOrderFull])).1,
    by norm_num [c4WPos, c4WOrderPart],
    (hpart.2 (by norm_num [c4WPos, c4WOrderPart])).1⟩

/-- C5: a same-side order (pyramiding) against an open position replaces the
entry price by the exact size-weighted average
`(oldEntry·oldSize + price·addSize)/(oldSize + addSize)`, sets the size to
`oldSize + addSize` and increments the pyramiding level by exactly one; no
other position field, the cash balance or the trade log changes. -/
theorem c5_pyramiding_weighted_entry (s : ExchangeState) (order : Order) (price : ℚ)
    (position : Position)
    (hpos : s.positions order.symbol = some position)
    (hsame : (position.side = PositionSide.long ∧ order.side = OrderSide.buy) ∨
      (position.side = PositionSide.short ∧ order.side = OrderSide.sell)) :
    (updatePosition s order price).positions order.symbol =
      some { position with
              entryPrice := (position.entryPrice * position.size + price * order.size) /
                (position.size + order.size)
              size := position.size + order.size
              pyramidingLevel := position.pyramidingLevel + 1 } ∧
    (updatePosition s order price).balance = s.balance ∧
    (updatePosition s order price).trades = s.trades := by
  rcases hsame with ⟨h1, h2⟩ | ⟨h1, h2⟩ <;>
    simp [updatePosition, hpos, h1, h2, isClosingOrder]

def c5WOrder : Order :=
  { symbol := "X", side := OrderSide.buy, orderType := OrderType.market, size := 2 }

theorem c5_pyramiding_weighted_entry_witness :
    c4WState.positions c5WOrder.symbol = some c4WPos ∧
    (updatePosition c4WState c5WOrder 130).positions c5WOrder.symbol =
      some { c4WPos with
              entryPrice := (c4WPos.entryPrice * c4WPos.size + 130 * c5WOrder.size) /
                (c4WPos.size + c5WOrder.size)
              size := c4WPos.size + c5WOrder.size
              pyramidingLevel := c4WPos.pyramidingLevel + 1 } := by
  have hmem : c4WState.positions "X" = some c4WPos := by simp [c4WState]
  have h := c5_pyramiding_weighted_entry c4WState c5WOrder 130 c4WPos hmem (Or.inl ⟨rfl, rfl⟩)
  exact ⟨hmem, h.1⟩

/-- C10: `_open_position` always creates the position with
`stop_loss = 0` and `take_profit = 0`, and the stop check treats a zero
`stop_loss`/`take_profit` as disabled, so `check_stop_loss_take_profit`
leaves the whole state untouched on such a position, whatever the current
price. -/
theorem c10_fresh_position_never_stop_closed (s : ExchangeState) (order : Order)
    (price p : ℚ) (sym : String) (position : Position) :
    (∀ q, (openPosition s order price).positions order.symbol = some q →
      q.stopLoss = 0 ∧ q.takeProfit = 0) ∧
    (s.positions sym = some position → position.stopLoss = 0 → position.takeProfit = 0 →
      checkStopLossTakeProfit s sym p = s) := by
  constructor
  · intro q hq
    simp only [openPosition, if_true, eq_self_iff_true, Option.some.injEq] at hq
    subst hq
    exact ⟨rfl, rfl⟩
  · intro hpos hsl htp
    have hfalse : shouldClose position p = false := by
      simp [shouldClose, hsl, htp]
    simp [checkStopLossTakeProfit, hpos, hfalse]

def c10WOrder : Order :=
  { symbol := "Y", side := OrderSide.buy, orderType := OrderType.market, size := 1 }

theorem c10_fresh_position_never_stop_closed_witness :
    (∀ q, (openPosition c4WState c10WOrder 100).positions c10WOrder.symbol = some q →
      q.stopLoss = 0 ∧ q.takeProfit = 0) ∧
    c4WState.positions "X" = some c4WPos ∧
    checkStopLossTakeProfit c4WState "X" 55 = c4WState := by
  have hmem : c4WState.positions "X" = some c4WPos := by simp [c4WState]
  have h := c10_fresh_position_never_stop_closed c4WState c10WOrder 100 55 "X" c4WPos
  exact ⟨h.1, hmem, h.2 hmem rfl rfl⟩

/-- Accept path of `_execute_order` for a fully closing order: the position
is deleted and exactly one `Trade` record is appended. -/
lemma executeOrder_full_close (s : ExchangeState) (order : Order) (price : ℚ)
    (position : Position)
    (hpos : s.positions order.symbol = some position)
    (hopp : isClosingOrder position.side order.side = true)
    (hge : position.size ≤ order.size)
    (hacc : ¬(order.size * price / order.leverage + order.size * price * (1/1000) >
      s.balance)) :
    (executeOrder s order price).positions order.symbol = none ∧
    (executeOrder s order price).trades = s.trades ++
      [{ tradeId := "trade_" ++ toString (s.trades.length + 1)
         symbol := order.symbol
         side := order.side
         price := price
         size := order.size
         commission := order.size * price * (1/1000) }] := by
  simp only [executeOrder]
  rw [if_neg hacc]
  simp [updatePosition, hpos, hopp, hge]

def c2Pos : Position :=
  { symbol := "X", side := PositionSide.long, entryPrice := 100, size := 1, leverage := 5,
    stopLoss := 80, takeProfit := 200 }

def c2State : ExchangeState :=
  { balance := 1, initialBalance := 1,
    positions := fun sym => if sym = "X" then some c2Pos else none,
    orders := fun _ => none, trades := [], orderCounter := 0 }

/-- C2, counterexample: a long position with `stop_loss = 80 > 0` and
`take_profit = 200 > 0` is NOT closed by the stop check at price `50 ≤ 80`,
because the close order it submits is rejected by `_execute_order`'s
margin-plus-commission balance check (`50.05 > 1`). -/
theorem c2_counterexample_rejected_close :
    0 < c2Pos.stopLoss ∧ 0 < c2Pos.takeProfit ∧ c2Pos.side = PositionSide.long ∧
    (50 : ℚ) ≤ c2Pos.stopLoss ∧ c2State.positions "X" = some c2Pos ∧
    (checkStopLossTakeProfit c2State "X" 50).positions "X" = some c2Pos := by
  refine ⟨by norm_num [c2Pos], by norm_num [c2Pos], rfl, by norm_num [c2Pos],
    by simp [c2State], ?_⟩
  norm_num [checkStopLossTakeProfit, shouldClose, executeOrder, c2State, c2Pos]

/-- C2, amended: for an open position with positive `stop_loss` and
`take_profit`, whenever the current price crosses the stop or the target
(long: `price ≤ stop` or `price ≥ target`; short: `price ≥ stop` or
`price ≤ target`) AND the submitted close order passes `_execute_order`'s
margin-plus-commission balance check (`size·price/1 + size·price·0.001 ≤
balance`; the close order carries the default leverage 1), the stop check
closes the whole position at the current price and appends exactly one
trade; and it never touches the state when the price sits strictly between
`stop_loss` and `take_profit` for a long position with
`stop < entry < target`. -/
theorem c2_stop_check_with_funds (s : ExchangeState) (sym : String) (p : ℚ)
    (position : Position)
    (hpos : s.positions sym = some position)
    (hsl : 0 < position.stopLoss) (htp : 0 < position.takeProfit) :
    ((position.side = PositionSide.long ∧ (p ≤ position.stopLoss ∨ position.takeProfit ≤ p) ∨
      position.side = PositionSide.short ∧ (position.stopLoss ≤ p ∨ p ≤ position.takeProfit)) →
      position.size * p / 1 + position.size * p * (1/1000) ≤ s.balance →
      (checkStopLossTakeProfit s sym p).positions sym = none ∧
      ∃ t, (checkStopLossTakeProfit s sym p).trades = s.trades ++ [t] ∧
        t.price = p ∧ t.size = position.size) ∧
    (position.side = PositionSide.long → position.stopLoss < position.entryPrice →
      position.entryPrice < position.takeProfit →
      position.stopLoss < p → p < position.takeProfit →
      checkStopLossTakeProfit s sym p = s) := by
  constructor
  · intro hcross hfunds
    rcases hcross with ⟨hside, hor⟩ | ⟨hside, hor⟩
    · have hsc : shouldClose position p = true := by
        simp [shouldClose, hside, hsl, htp]
        tauto
      have hck : checkStopLossTakeProfit s sym p = executeOrder s
          { symbol := sym, side := OrderSide.sell, orderType := OrderType.market,
            size := position.size } p := by
        simp [checkStopLossTakeProfit, hpos, hsc, hside]
      have hcl := executeOrder_full_close s
        { symbol := sym, side := OrderSide.sell, orderType := OrderType.market,
          size := position.size } p position hpos (by rw [hside]; rfl) le_rfl
        (not_lt.mpr hfunds)
      rw [hck]
      exact ⟨hcl.1, _, hcl.2, rfl, rfl⟩
    · have hsc : shouldClose position p = true := by
        simp [shouldClose, hside, hsl, htp]
        tauto
      have hck : checkStopLossTakeProfit s sym p = executeOrder s
          { symbol := sym, side := OrderSide.buy, orderType := OrderType.market,
            size := position.size } p := by
        simp [checkStopLossTakeProfit, hpos, hsc, hside]
      have hcl := executeOrder_full_close s
        { symbol := sym, side := OrderSide.buy, orderType := OrderType.market,
          size := position.size } p position hpos (by rw [hside]; rfl) le_rfl
        (not_lt.mpr hfunds)
      rw [hck]
      exact ⟨hcl.1, _, hcl.2, rfl, rfl⟩
  · intro hside _ _ hsp hpt
    have hsc : shouldClose position p = false := by
      simp [shouldClose, hside, hsl, htp, not_le.mpr hsp, not_le.mpr hpt]
    simp [checkStopLossTakeProfit, hpos, hsc]

def c2WState : ExchangeState :=
  { balance := 10000, initialBalance := 10000,
    positions := fun sym => if sym = "X" then some c2Pos else none,
    orders := fun _ => none, trades := [], orderCounter := 0 }

theorem c2_stop_check_with_funds_witness :
    c2WState.positions "X" = some c2Pos ∧ 0 < c2Pos.stopLoss ∧ 0 < c2Pos.takeProfit ∧
    (50 : ℚ) ≤ c2Pos.stopLoss ∧
    c2Pos.size * 50 / 1 + c2Pos.size * 50 * (1/1000) ≤ c2WState.balance ∧
    (checkStopLossTakeProfit c2WState "X" 50).positions "X" = none ∧
    c2Pos.stopLoss < (100 : ℚ) ∧ (100 : ℚ) < c2Pos.takeProfit ∧
    checkStopLossTakeProfit c2WState "X" 100 = c2WState := by
  have hmem : c2WState.positions "X" = some c2Pos := by simp [c2WState]
  have h50 := c2_stop_check_with_funds c2WState "X" 50 c2Pos hmem
    (by norm_num [c2Pos]) (by norm_num [c2Pos])
  have h100 := c2_stop_check_with_funds c2WState "X" 100 c2Pos hmem
    (by norm_num [c2Pos]) (by norm_num [c2Pos])
  refine ⟨hmem, by norm_num [c2Pos], by norm_num [c2Pos], by norm_num [c2Pos],
    by norm_num [c2Pos, c2WState], ?_, by norm_num [c2Pos], by norm_num [c2Pos], ?_⟩
  · exact (h50.1 (Or.inl ⟨rfl, Or.inl (by norm_num [c2Pos])⟩)
      (by norm_num [c2Pos, c2WState])).1
  · exact h100.2 rfl (by norm_num [c2Pos]) (by norm_num [c2Pos])
      (by norm_num [c2Pos]) (by norm_num [c2Pos])

def c1Buy : Order :=
  { symbol := "BTC-USDT", side := OrderSide.buy, orderType := OrderType.market,
    size := 1/10, leverage := 5 }

def c1Sell : Order :=
  { symbol := "BTC-USDT", side := OrderSide.sell, orderType := OrderType.market,
    size := 1/10 }

def c1S1 : ExchangeState := executeOrder (initialState 10000) c1Buy 50000

def c1S2 : ExchangeState := executeOrder c1S1 c1Sell 51000

/-- C1, code evaluation at the failing input (the end-to-end scenario of the
spec: buy 0.1 at 50000 with leverage 5 on balance 10000, then fully close by
selling 0.1 at 51000): the close credits the realized PnL of 100 to the cash
balance (final balance 10089.9), yet BOTH appended `Trade` records carry
`pnl = 0` — `_execute_order` never sets the `pnl` field — so
`get_statistics` reports `total_pnl = 0` and `win_rate = 0` instead of the
claimed sum of realized PnL over closing trades and percentage of winning
trades. -/
def c1OpenPos : Position :=
  { symbol := "BTC-USDT", side := PositionSide.long, entryPrice := 50000,
    size := 1/10, leverage := 5, stopLoss := 0, takeProfit := 0 }

def c1BuyTrade : Trade :=
  { tradeId := "trade_1", symbol := "BTC-USDT", side := OrderSide.buy,
    price := 50000, size := 1/10, commission := 5 }

def c1SellTrade : Trade :=
  { tradeId := "trade_2", symbol := "BTC-USDT", side := OrderSide.sell,
    price := 51000, size := 1/10, commission := 51/10 }

def c1AfterOpen : ExchangeState :=
  { balance := 9995, initialBalance := 10000,
    positions := fun sym => if sym = "BTC-USDT" then some c1OpenPos else none,
    orders := fun _ => none,
    trades := [c1BuyTrade],
    orderCounter := 0 }

theorem c1_trade_log_pnl_always_zero :
    c1S2.balance = 100899/10 ∧
    c1S2.positions "BTC-USDT" = none ∧
    calculatePnl c1OpenPos 51000 = 100 ∧
    c1S2.trades.map Trade.pnl = [0, 0] ∧
    statsTotalPnl c1S2 = 0 ∧
    statsWinRate c1S2 = 0 := by
  have h1 : c1S1 = c1AfterOpen := by
    norm_num [c1S1, executeOrder, openPosition, initialState, c1Buy, c1AfterOpen,
      c1OpenPos, c1BuyTrade]
    rfl
  have h2 : c1S2.balance = 100899/10 ∧ c1S2.positions "BTC-USDT" = none ∧
      c1S2.trades = [c1BuyTrade, c1SellTrade] := by
    rw [c1S2, h1]
    norm_num [executeOrder, updatePosition, isClosingOrder, calculatePnl, c1Sell,
      c1AfterOpen, c1OpenPos, c1BuyTrade, c1SellTrade]
    rfl
  refine ⟨h2.1, h2.2.1, by norm_num [calculatePnl, c1OpenPos], ?_, ?_, ?_⟩
  · rw [h2.2.2]; rfl
  · rw [statsTotalPnl, h2.2.2]; norm_num [c1BuyTrade, c1SellTrade]
  · rw [statsWinRate, h2.2.2]; norm_num [c1BuyTrade, c1SellTrade]

/-- `Candle` dataclass from `core/data_structures.py` (timestamp omitted;
only the fields read by the momentum engine, the aggregator and the
strategy are kept). -/
structure Candle where
  «open» : ℚ
  high : ℚ
  low : ℚ
  close : ℚ
  volume : ℚ
  timeframe : ℕ
deriving DecidableEq

/-- `np.diff` on a one-dimensional array: consecutive differences
`l[i+1] - l[i]`. -/
def npDiff (l : List ℚ) : List ℚ :=
  List.zipWith (fun a b => b - a) l l.tail

/-- `np.mean` (0 on the empty list, where numpy would produce `nan`;
the source only takes means of non-empty arrays). -/
def npMean (l : List ℚ) : ℚ :=
  l.sum / (l.length : ℚ)

/-- `PsiFrequencyCalculator.calculate_trajectory`: velocity is the
zero-padded first difference of the closes, acceleration the zero-padded
first difference of velocity, and the trajectory their
`velocity + acceleration * sensitivity` combination; fewer than two candles
yield the single-element array `[0.0]`. -/
def calculateTrajectory (sensitivity : ℚ) (candles : List Candle) : List ℚ :=
  if candles.length < 2 then [0]
  else
    let prices := candles.map Candle.close
    let velocity := 0 :: npDiff prices
    let acceleration := 0 :: npDiff velocity
    List.zipWith (fun v a => v + a * sensitivity) velocity acceleration

/-- Zero-padded first difference of a price list, written as an index
function (the sentence of the spec, independent of `npDiff`). -/
def velocityAt (prices : List ℚ) (i : ℕ) : ℚ :=
  if i = 0 then 0 else prices.getD i 0 - prices.getD (i - 1) 0

/-- Zero-padded first difference of `velocityAt`. -/
def accelerationAt (prices : List ℚ) (i : ℕ) : ℚ :=
  if i = 0 then 0 else velocityAt prices i - velocityAt prices (i - 1)

lemma npDiff_length (l : List ℚ) : (npDiff l).length = l.length - 1 := by
  simp only [npDiff, List.length_zipWith, List.length_tail]
  omega

lemma npDiff_getD (l : List ℚ) (j : ℕ) (h : j < l.length - 1) :
    (npDiff l).getD j 0 = l.getD (j + 1) 0 - l.getD j 0 := by
  have h1 : j < (npDiff l).length := by rw [npDiff_length]; exact h
  have h2 : j < l.length := by omega
  have h3 : j + 1 < l.length := by omega
  have h4 : j < l.tail.length := by simp only [List.length_tail]; omega
  rw [List.getD_eq_getElem _ _ h1, List.getD_eq_getElem _ _ h2,
    List.getD_eq_getElem _ _ h3]
  simp only [npDiff, List.getElem_zipWith, List.getElem_tail]

lemma velocity_getD (l : List ℚ) (k : ℕ) (hk : k < l.length) :
    (0 :: npDiff l).getD k 0 = velocityAt l k := by
  cases k with
  | zero => simp [velocityAt]
  | succ j =>
    simp only [List.getD_cons_succ, velocityAt, Nat.succ_ne_zero, if_false,
      Nat.add_sub_cancel]
    exact npDiff_getD l j (by omega)

/-- C8: for at least two candles `calculate_trajectory` has the input's
length and equals `velocity + sensitivity·acceleration` pointwise, where
velocity and acceleration are the zero-padded first differences of the
closes and of the velocity; for fewer than two candles (the empty list
included) it is the single-element array `[0.0]`. -/
theorem c8_trajectory_shape (sensitivity : ℚ) (candles : List Candle) :
    (candles.length < 2 → calculateTrajectory sensitivity candles = [0]) ∧
    (2 ≤ candles.length →
      (calculateTrajectory sensitivity candles).length = candles.length ∧
      ∀ i, i < candles.length →
        (calculateTrajectory sensitivity candles).getD i 0 =
          velocityAt (candles.map Candle.close) i +
            sensitivity * accelerationAt (candles.map Candle.close) i) := by
  constructor
  · intro h
    simp [calculateTrajectory, h]
  · intro h
    have hnot : ¬ candles.length < 2 := by omega
    set prices := candles.map Candle.close with hp
    have hpl : prices.length = candles.length := by simp [hp]
    have hvl : (0 :: npDiff prices).length = candles.length := by
      simp only [List.length_cons, npDiff_length, hpl]
      omega
    have hal : (0 :: npDiff (0 :: npDiff prices)).length = candles.length := by
      simp only [List.length_cons, npDiff_length, hvl]
      omega
    have hlen : (calculateTrajectory sensitivity candles).length = candles.length := by
      simp only [calculateTrajectory, if_neg hnot, List.length_zipWith, ← hp, hvl, hal,
        min_self]
    refine ⟨hlen, fun i hi => ?_⟩
    have hi1 : i < (calculateTrajectory sensitivity candles).length := by rw [hlen]; exact hi
    have hi2 : i < (0 :: npDiff prices).length := by rw [hvl]; exact hi
    have hi3 : i < (0 :: npDiff (0 :: npDiff prices)).length := by rw [hal]; exact hi
    rw [List.getD_eq_getElem _ _ hi1]
    have hstep : (calculateTrajectory sensitivity candles)[i] =
        ((0 :: npDiff prices).getD i 0) + ((0 :: npDiff (0 :: npDiff prices)).getD i 0) *
          sensitivity := by
      simp only [calculateTrajectory, if_neg hnot, ← hp]
      rw [List.getElem_zipWith]
      rw [List.getD_eq_getElem _ _ hi2, List.getD_eq_getElem _ _ hi3]
    rw [hstep, velocity_getD prices i (by omega)]
    have hacc : (0 :: npDiff (0 :: npDiff prices)).getD i 0 =
        accelerationAt prices i := by
      cases i with
      | zero => simp [accelerationAt]
      | succ j =>
        simp only [List.getD_cons_succ, accelerationAt, Nat.succ_ne_zero, if_false,
          Nat.add_sub_cancel]
        rw [npDiff_getD (0 :: npDiff prices) j (by rw [hvl]; omega)]
        rw [velocity_getD prices (j + 1) (by rw [hpl]; omega),
          velocity_getD prices j (by rw [hpl]; omega)]
    rw [hacc]
    ring

def c8WCandle1 : Candle :=
  { «open» := 100, high := 101, low := 99, close := 100, volume := 10, timeframe := 1 }

def c8WCandle2 : Candle :=
  { «open» := 100, high := 112, low := 99, close := 110, volume := 10, timeframe := 1 }

theorem c8_trajectory_shape_witness :
    (([] : List Candle).length < 2 ∧ calculateTrajectory 1 [] = [0]) ∧
    (2 ≤ [c8WCandle1, c8WCandle2].length ∧
      (calculateTrajectory 1 [c8WCandle1, c8WCandle2]).length = 2 ∧
      (calculateTrajectory 1 [c8WCandle1, c8WCandle2]).getD 1 0 =
        velocityAt ([c8WCandle1, c8WCandle2].map Candle.close) 1 +
          1 * accelerationAt ([c8WCandle1, c8WCandle2].map Candle.close) 1) := by
  have h0 := c8_trajectory_shape 1 ([] : List Candle)
  have h2 := c8_trajectory_shape 1 [c8WCandle1, c8WCandle2]
  exact ⟨⟨by simp, h0.1 (by simp)⟩,
    ⟨by simp, (h2.2 (by simp)).1, (h2.2 (by simp)).2 1 (by simp)⟩⟩

/-- Python `max` over a non-empty sequence (0 on the empty list, where
Python would raise; the aggregator only calls it on complete groups). -/
def listMax : List ℚ → ℚ
  | [] => 0
  | x :: xs => xs.foldl max x

/-- Python `min` over a non-empty sequence (0 on the empty list). -/
def listMin : List ℚ → ℚ
  | [] => 0
  | x :: xs => xs.foldl min x

lemma foldl_max_spec (x : ℚ) (xs : List ℚ) :
    xs.foldl max x ∈ x :: xs ∧ ∀ y ∈ x :: xs, y ≤ xs.foldl max x := by
  induction xs generalizing x with
  | nil => simp
  | cons a l ih =>
    have h := ih (max x a)
    have hmem := h.1
    rw [List.mem_cons] at hmem
    constructor
    · rw [List.foldl_cons]
      rcases hmem with hm | hm
      · rw [hm]
        rcases max_choice x a with hc | hc <;> rw [hc] <;> simp
      · exact List.mem_cons_of_mem _ (List.mem_cons_of_mem _ hm)
    · intro y hy
      rw [List.mem_cons, List.mem_cons] at hy
      rw [List.foldl_cons]
      rcases hy with hy | hy | hy
      · subst hy
        exact le_trans (le_max_left y a) (h.2 (max y a) (List.mem_cons_self _ _))
      · subst hy
        exact le_trans (le_max_right x y) (h.2 (max x y) (List.mem_cons_self _ _))
      · exact h.2 y (List.mem_cons_of_mem _ hy)

lemma foldl_min_spec (x : ℚ) (xs : List ℚ) :
    xs.foldl min x ∈ x :: xs ∧ ∀ y ∈ x :: xs, xs.foldl min x ≤ y := by
  induction xs generalizing x with
  | nil => simp
  | cons a l ih =>
    have h := ih (min x a)
    have hmem := h.1
    rw [List.mem_cons] at hmem
    constructor
    · rw [List.foldl_cons]
      rcases hmem with hm | hm
      · rw [hm]
        rcases min_choice x a with hc | hc <;> rw [hc] <;> simp
      · exact List.mem_cons_of_mem _ (List.mem_cons_of_mem _ hm)
    · intro y hy
      rw [List.mem_cons, List.mem_cons] at hy
      rw [List.foldl_cons]
      rcases hy with hy | hy | hy
      · subst hy
        exact le_trans (h.2 (min y a) (List.mem_cons_self _ _)) (min_le_left y a)
      · subst hy
        exact le_trans (h.2 (min x y) (List.mem_cons_self _ _)) (min_le_right x y)
      · exact h.2 y (List.mem_cons_of_mem _ hy)

lemma listMax_mem {l : List ℚ} (h : l ≠ []) : listMax l ∈ l := by
  cases l with
  | nil => exact absurd rfl h
  | cons x xs => exact (foldl_max_spec x xs).1

lemma le_listMax {l : List ℚ} {y : ℚ} (hy : y ∈ l) : y ≤ listMax l := by
  cases l with
  | nil => simp at hy
  | cons x xs => exact (foldl_max_spec x xs).2 y hy

lemma listMin_mem {l : List ℚ} (h : l ≠ []) : listMin l ∈ l := by
  cases l with
  | nil => exact absurd rfl h
  | cons x xs => exact (foldl_min_spec x xs).1

lemma listMin_le {l : List ℚ} {y : ℚ} (hy : y ∈ l) : listMin l ≤ y := by
  cases l with
  | nil => simp at hy
  | cons x xs => exact (foldl_min_spec x xs).2 y hy

/-- `TimeframeAggregator._aggregate_candle_group`: first open, max high,
min low, last close, summed volume (the Python method indexes `candles[0]`
and `candles[-1]` and is only called on complete, hence non-empty, groups;
the `[]` branch is unreachable). -/
def aggregateCandleGroup (candles : List Candle) (timeframe : ℕ) : Candle :=
  match candles with
  | [] => { «open» := 0, high := 0, low := 0, close := 0, volume := 0, timeframe := timeframe }
  | c0 :: rest =>
    { «open» := c0.«open»
      high := listMax ((c0 :: rest).map Candle.high)
      low := listMin ((c0 :: rest).map Candle.low)
      close := ((c0 :: rest).getLast (by simp)).close
      volume := ((c0 :: rest).map Candle.volume).sum
      timeframe := timeframe }

/-- The chunking loop of `TimeframeAggregator.aggregate_to_timeframe`
(`for i in range(0, len(base_candles), ratio)` keeping only the complete
chunks).  The loop is only reached with `ratio ≥ 2`; Python `range` would
reject a zero step, so a zero ratio is totalised to `[]`. -/
def aggLoop (cs : List Candle) (ratio targetTimeframe : ℕ) : List Candle :=
  if h : ratio = 0 ∨ cs.length < ratio then []
  else
    aggregateCandleGroup (cs.take ratio) targetTimeframe ::
      aggLoop (cs.drop ratio) ratio targetTimeframe
termination_by cs.length
decreasing_by
  simp only [List.length_drop]
  push_neg at h
  omega

/-- `TimeframeAggregator.aggregate_to_timeframe`: empty input yields `[]`;
a ratio (integer division of target by the first candle's timeframe) of at
most 1 returns the base list unchanged; otherwise consecutive complete
groups of `ratio` candles are aggregated and the incomplete tail is
dropped. -/
def aggregateToTimeframe (baseCandles : List Candle) (targetTimeframe : ℕ) : List Candle :=
  match baseCandles with
  | [] => []
  | c0 :: rest =>
    let ratio := targetTimeframe / c0.timeframe
    if ratio ≤ 1 then c0 :: rest
    else aggLoop (c0 :: rest) ratio targetTimeframe

lemma aggLoop_length (ratio t : ℕ) (hr : ratio ≠ 0) :
    ∀ n (cs : List Candle), cs.length ≤ n → (aggLoop cs ratio t).length = cs.length / ratio := by
  intro n
  induction n with
  | zero =>
    intro cs hcs
    have h0 : cs.length = 0 := by omega
    rw [aggLoop.eq_def]
    rw [dif_pos (Or.inr (by omega))]
    simp [h0, Nat.zero_div]
  | succ n ih =>
    intro cs hcs
    rw [aggLoop.eq_def]
    by_cases h : ratio = 0 ∨ cs.length < ratio
    · rw [dif_pos h]
      rcases h with h | h
      · exact absurd h hr
      · simp [Nat.div_eq_of_lt h]
    · rw [dif_neg h]
      push_neg at h
      have hge : ratio ≤ cs.length := h.2
      have hlt : 0 < ratio := Nat.pos_of_ne_zero hr
      rw [List.length_cons, ih (cs.drop ratio) (by simp only [List.length_drop]; omega)]
      rw [List.length_drop]
      conv_rhs => rw [Nat.div_eq cs.length ratio]
      rw [if_pos ⟨hlt, hge⟩]

lemma aggLoop_getElem (ratio t : ℕ) (hr : ratio ≠ 0) :
    ∀ (i : ℕ) (cs : List Candle) (hi : i < (aggLoop cs ratio t).length),
      (aggLoop cs ratio t)[i] =
        aggregateCandleGroup ((cs.drop (i * ratio)).take ratio) t := by
  intro i
  induction i with
  | zero =>
    intro cs hi
    by_cases h : ratio = 0 ∨ cs.length < ratio
    · exfalso
      rw [aggLoop.eq_def, dif_pos h] at hi
      simp at hi
    · have hEq : aggLoop cs ratio t =
          aggregateCandleGroup (cs.take ratio) t :: aggLoop (cs.drop ratio) ratio t := by
        rw [aggLoop.eq_def, dif_neg h]
      rw [List.getElem_of_eq hEq, List.getElem_cons_zero]
      simp
  | succ j ih =>
    intro cs hi
    by_cases h : ratio = 0 ∨ cs.length < ratio
    · exfalso
      rw [aggLoop.eq_def, dif_pos h] at hi
      simp at hi
    · have hEq : aggLoop cs ratio t =
          aggregateCandleGroup (cs.take ratio) t :: aggLoop (cs.drop ratio) ratio t := by
        rw [aggLoop.eq_def, dif_neg h]
      have hi2 : j < (aggLoop (cs.drop ratio) ratio t).length := by
        rw [hEq] at hi
        simpa using hi
      rw [List.getElem_of_eq hEq, List.getElem_cons_succ]
      rw [ih (cs.drop ratio) hi2]
      rw [List.drop_drop]
      congr 2
      ring

/-- C7: aggregating a non-empty uniform-timeframe candle list with ratio
`R = target / tf` returns the base list unchanged when `R ≤ 1`, and
otherwise exactly `⌊N/R⌋` candles (incomplete trailing group dropped), the
`i`-th of which takes its open from its group's first candle, its close
from its group's last candle, its high/low as the group's maximum high and
minimum low, and its volume as the group's summed volume. -/
theorem c7_aggregation_groups (baseCandles : List Candle) (targetTimeframe tf : ℕ)
    (hne : baseCandles ≠ []) (htf : ∀ c ∈ baseCandles, c.timeframe = tf) :
    (targetTimeframe / tf ≤ 1 →
      aggregateToTimeframe baseCandles targetTimeframe = baseCandles) ∧
    (1 < targetTimeframe / tf →
      (aggregateToTimeframe baseCandles targetTimeframe).length =
        baseCandles.length / (targetTimeframe / tf) ∧
      ∀ i, ∀ hi : i < (aggregateToTimeframe baseCandles targetTimeframe).length,
        ((aggregateToTimeframe baseCandles targetTimeframe)[i].«open» ∈
            ((baseCandles.drop (i * (targetTimeframe / tf))).take
              (targetTimeframe / tf)).head?.map Candle.«open» ∧
          (aggregateToTimeframe baseCandles targetTimeframe)[i].close ∈
            ((baseCandles.drop (i * (targetTimeframe / tf))).take
              (targetTimeframe / tf)).getLast?.map Candle.close ∧
          (∀ c ∈ (baseCandles.drop (i * (targetTimeframe / tf))).take
              (targetTimeframe / tf),
            c.high ≤ (aggregateToTimeframe baseCandles targetTimeframe)[i].high) ∧
          (aggregateToTimeframe baseCandles targetTimeframe)[i].high ∈
            ((baseCandles.drop (i * (targetTimeframe / tf))).take
              (targetTimeframe / tf)).map Candle.high ∧
          (∀ c ∈ (baseCandles.drop (i * (targetTimeframe / tf))).take
              (targetTimeframe / tf),
            (aggregateToTimeframe baseCandles targetTimeframe)[i].low ≤ c.low) ∧
          (aggregateToTimeframe baseCandles targetTimeframe)[i].low ∈
            ((baseCandles.drop (i * (targetTimeframe / tf))).take
              (targetTimeframe / tf)).map Candle.low ∧
          (aggregateToTimeframe baseCandles targetTimeframe)[i].volume =
            (((baseCandles.drop (i * (targetTimeframe / tf))).take
              (targetTimeframe / tf)).map Candle.volume).sum)) := by
  obtain ⟨c0, rest, rfl⟩ : ∃ c d, baseCandles = c :: d := by
    cases baseCandles with
    | nil => exact absurd rfl hne
    | cons a l => exact ⟨a, l, rfl⟩
  have h0 : c0.timeframe = tf := htf c0 (by simp)
  have hagg : aggregateToTimeframe (c0 :: rest) targetTimeframe =
      (if targetTimeframe / tf ≤ 1 then c0 :: rest
       else aggLoop (c0 :: rest) (targetTimeframe / tf) targetTimeframe) := by
    simp only [aggregateToTimeframe, h0]
  constructor
  · intro hle
    rw [hagg, if_pos hle]
  · intro hgt
    have hr : targetTimeframe / tf ≠ 0 := by omega
    have hnle : ¬ targetTimeframe / tf ≤ 1 := by omega
    rw [hagg, if_neg hnle]
    set r := targetTimeframe / tf with hrdef
    have hlen := aggLoop_length r targetTimeframe hr (c0 :: rest).length (c0 :: rest) le_rfl
    refine ⟨hlen, fun i hi => ?_⟩
    have hgd := aggLoop_getElem r targetTimeframe hr i (c0 :: rest) hi
    set g := ((c0 :: rest).drop (i * r)).take r with hgdef
    have hglen : g.length = r := by
      rw [hgdef, List.length_take, List.length_drop]
      have hi2 : i < (c0 :: rest).length / r := by rw [← hlen]; exact hi
      have hmul : (i + 1) * r = i * r + r := by ring
      have hle2 : (i + 1) * r ≤ (c0 :: rest).length :=
        (Nat.le_div_iff_mul_le (Nat.pos_of_ne_zero hr)).1 (by omega : i + 1 ≤ (c0 :: rest).length / r)
      omega
    obtain ⟨g0, grest, hgcons⟩ : ∃ c d, g = c :: d := by
      cases hgl : g with
      | nil => rw [hgl] at hglen; simp at hglen; omega
      | cons a l => exact ⟨a, l, rfl⟩
    rw [hgd, hgcons]
    rw [aggregateCandleGroup]
    refine ⟨?_, ?_, ?_, ?_, ?_, ?_, rfl⟩
    · simp
    · rw [List.getLast?_eq_getLast _ (by simp)]
      simp
    · intro c hc
      exact le_listMax (List.mem_map_of_mem Candle.high hc)
    · exact listMax_mem (by simp)
    · intro c hc
      exact listMin_le (List.mem_map_of_mem Candle.low hc)
    · exact listMin_mem (by simp)

def c7WBase : List Candle :=
  [c8WCandle1, c8WCandle2, c8WCandle1, c8WCandle2, c8WCandle1]

theorem c7_aggregation_groups_witness :
    c7WBase ≠ [] ∧ (∀ c ∈ c7WBase, c.timeframe = 1) ∧
    (1 : ℕ) / 1 ≤ 1 ∧ aggregateToTimeframe c7WBase 1 = c7WBase ∧
    1 < (2 : ℕ) / 1 ∧ (aggregateToTimeframe c7WBase 2).length = c7WBase.length / (2 / 1) := by
  have hne : c7WBase ≠ [] := by simp [c7WBase]
  have htf : ∀ c ∈ c7WBase, c.timeframe = 1 := by
    intro c hc
    simp only [c7WBase, List.mem_cons, List.mem_singleton] at hc
    rcases hc with rfl | rfl | rfl | rfl | rfl | h
    · rfl
    · rfl
    · rfl
    · rfl
    · rfl
    · simp at h
  have h1 := c7_aggregation_groups c7WBase 1 1 hne htf
  have h2 := c7_aggregation_groups c7WBase 2 1 hne htf
  exact ⟨hne, htf, by norm_num, h1.1 (by norm_num), by norm_num,
    (h2.2 (by norm_num)).1⟩

/-- The last `window` candles, Python `candles[-window:]` (for a zero
window Python's `-0` slice is the whole list). -/
def lastWindow (window : ℕ) (candles : List Candle) : List Candle :=
  if window = 0 then candles else candles.drop (candles.length - window)

/-- `PsiFrequencyCalculator._calculate_price_momentum`: mean absolute
relative close-to-close return, scaled by the sensitivity. -/
def priceMomentum (sensitivity : ℚ) (candles : List Candle) : ℚ :=
  let prices := candles.map Candle.close
  let returns := List.zipWith (fun prev next => (next - prev) / prev) prices prices.tail
  npMean (returns.map abs) * sensitivity

/-- `PsiFrequencyCalculator._calculate_volume_momentum`: 0 when total
volume is 0, otherwise the volume-weighted mean absolute price change
(`np.sum(np.abs(np.diff(prices)) * volume_weights[1:])`). -/
def volumeMomentum (candles : List Candle) : ℚ :=
  let volumes := candles.map Candle.volume
  if volumes.sum = 0 then 0
  else
    let prices := candles.map Candle.close
    let volumeWeights := volumes.map (fun v => v / volumes.sum)
    (List.zipWith (fun d w => |d| * w) (npDiff prices) volumeWeights.tail).sum

/-- The population variance underlying `np.std`. -/
def npVariance (l : List ℚ) : ℚ :=
  npMean (l.map (fun x => (x - npMean l) ^ 2))

/-- `np.std` (population standard deviation), in `ℝ` because of the square
root. -/
noncomputable def npStd (l : List ℚ) : ℝ :=
  Real.sqrt ((npVariance l : ℚ) : ℝ)

/-- `PsiFrequencyCalculator._calculate_wave_strength`: 0 when the mean
high-low amplitude is 0, otherwise the mean amplitude over the last high,
damped by the consistency factor `1 / (1 + std/mean)` of the amplitudes. -/
noncomputable def waveStrength (candles : List Candle) : ℝ :=
  let waveAmplitude := candles.map (fun c => c.high - c.low)
  let avgAmplitude := npMean waveAmplitude
  if avgAmplitude = 0 then 0
  else
    let consistencyFactor : ℝ := 1 / (1 + npStd waveAmplitude / (avgAmplitude : ℝ))
    ((avgAmplitude : ℝ) / (((candles.map Candle.high).getLastD 0 : ℚ) : ℝ)) * consistencyFactor

/-- `PsiFrequencyCalculator.calculate_psi_frequency`: 0.0 for fewer than
`window` candles, otherwise the `0.4/0.3/0.3`-weighted sum of the price,
volume and wave components over the last `window` candles, clipped with
`np.clip(·, 0.0, 1.0)`.  (The source also computes `calculate_trajectory`
on the window but never uses the result, so it is omitted here.) -/
noncomputable def calculatePsiFrequency (window : ℕ) (sensitivity : ℚ)
    (candles : List Candle) : ℝ :=
  if candles.length < window then 0
  else
    let recentCandles := lastWindow window candles
    let psiFreq : ℝ := (priceMomentum sensitivity recentCandles : ℚ) * 0.4 +
      (volumeMomentum recentCandles : ℚ) * 0.3 + waveStrength recentCandles * 0.3
    min 1 (max 0 psiFreq)

/-- C6: the momentum score is always a real value in `[0, 1]` — degenerate
inputs included — and candle sequences shorter than the window yield
exactly 0. -/
theorem c6_momentum_score_in_unit_interval (window : ℕ) (sensitivity : ℚ)
    (candles : List Candle) :
    (candles.length < window → calculatePsiFrequency window sensitivity candles = 0) ∧
    0 ≤ calculatePsiFrequency window sensitivity candles ∧
    calculatePsiFrequency window sensitivity candles ≤ 1 := by
  refine ⟨fun h => by simp [calculatePsiFrequency, h], ?_, ?_⟩
  · by_cases h : candles.length < window
    · simp [calculatePsiFrequency, h]
    · simp only [calculatePsiFrequency, if_neg h]
      exact le_min zero_le_one (le_max_left 0 _)
  · by_cases h : candles.length < window
    · simp [calculatePsiFrequency, h]
    · simp only [calculatePsiFrequency, if_neg h]
      exact min_le_left 1 _

theorem c6_momentum_score_in_unit_interval_witness :
    (([] : List Candle).length < 20 ∧ calculatePsiFrequency 20 (3/2) [] = 0) ∧
    0 ≤ calculatePsiFrequency 20 (3/2) [c8WCandle1, c8WCandle2] ∧
    calculatePsiFrequency 20 (3/2) [c8WCandle1, c8WCandle2] ≤ 1 := by
  have h0 := c6_momentum_score_in_unit_interval 20 (3/2) ([] : List Candle)
  have h2 := c6_momentum_score_in_unit_interval 20 (3/2) [c8WCandle1, c8WCandle2]
  exact ⟨⟨by simp, h0.1 (by simp)⟩, h2.2.1, h2.2.2⟩

/-- The trend labels returned by
`PsiFrequencyCalculator.detect_trend_swing`. -/
inductive Trend
  | bullish
  | bearish
  | neutral
deriving DecidableEq

/-- `PsiFrequencyCalculator.detect_trend_swing`: "neutral" on fewer than
`window` candles; otherwise "bullish"/"bearish" when the momentum score
exceeds the threshold and the mean of the trajectory's last (up to) five
points is positive/negative, else "neutral". -/
noncomputable def detectTrendSwing (threshold : ℚ) (window : ℕ) (sensitivity : ℚ)
    (candles : List Candle) : Trend :=
  if candles.length < window then .neutral
  else
    let psiFreq := calculatePsiFrequency window sensitivity candles
    let trajectory := calculateTrajectory sensitivity (lastWindow window candles)
    let recentTrajectory := trajectory.drop (trajectory.length - 5)
    let avgTrajectory := npMean recentTrajectory
    if (threshold : ℝ) < psiFreq ∧ 0 < avgTrajectory then .bullish
    else if (threshold : ℝ) < psiFreq ∧ avgTrajectory < 0 then .bearish
    else .neutral

/-- The hold/entry/exit reasons of `PsiFreqScalperStrategy`; the Python
strings (some of which interpolate the momentum score) are represented by
constructors: `insufficientData` ↔ "Insufficient data", `psiFreqTooLow` ↔
"Psi-frequency too low" (the spec's "momentum below threshold"),
`mlConfidenceTooLow` ↔ "ML confidence too low", `bullishTrendEntry` /
`bearishTrendEntry` ↔ "Bullish/Bearish trend with Psi-freq …",
`noStrongSignal` ↔ "No strong signal", `trendReversal` ↔ "Trend reversal
detected", `pyramidingOpportunity n` ↔ "Pyramiding opportunity at level n",
`holdingPosition` ↔ "Holding position". -/
inductive SignalReason
  | insufficientData
  | psiFreqTooLow
  | mlConfidenceTooLow
  | bullishTrendEntry
  | bearishTrendEntry
  | noStrongSignal
  | trendReversal
  | pyramidingOpportunity (level : ℕ)
  | holdingPosition
deriving DecidableEq

/-- `Signal` dataclass from `core/data_structures.py` (timestamp omitted;
`psi_frequency` lives in `ℝ` like the momentum score). -/
structure Signal where
  symbol : String
  action : String
  confidence : ℚ
  reason : SignalReason
  psiFrequency : ℝ
  trendStrength : ℚ

/-- `PsiFreqScalperStrategy._create_hold_signal`. -/
def createHoldSignal (reason : SignalReason) : Signal :=
  { symbol := "", action := "hold", confidence := 0, reason := reason,
    psiFrequency := 0, trendStrength := 0 }

/-- `PsiFreqScalperStrategy._generate_entry_signal`: momentum gate first,
then the scoring-confidence gate, then trend/class agreement. -/
noncomputable def generateEntrySignal (symbol : String)
    (psiThreshold predictionThreshold : ℚ) (trend : Trend) (psiFreq : ℝ)
    (trendStrength : ℚ) (signalAction : ℕ) (signalConfidence : ℚ) : Signal :=
  if psiFreq < (psiThreshold : ℝ) then createHoldSignal .psiFreqTooLow
  else if signalConfidence < predictionThreshold then createHoldSignal .mlConfidenceTooLow
  else if trend = .bullish ∧ signalAction = 1 then
    { symbol := symbol, action := "buy", confidence := signalConfidence,
      reason := .bullishTrendEntry, psiFrequency := psiFreq, trendStrength := trendStrength }
  else if trend = .bearish ∧ signalAction = 2 then
    { symbol := symbol, action := "sell", confidence := signalConfidence,
      reason := .bearishTrendEntry, psiFrequency := psiFreq, trendStrength := trendStrength }
  else createHoldSignal .noStrongSignal

/-- `PsiFreqScalperStrategy._generate_exit_or_pyramid_signal`. -/
noncomputable def generateExitOrPyramidSignal (position : Position)
    (pyramidingLevels : ℕ) (predictionThreshold : ℚ) (trend : Trend) (psiFreq : ℝ)
    (trendStrength : ℚ) (signalAction : ℕ) (signalConfidence : ℚ)
    (candles : List Candle) : Signal :=
  let currentPrice := (candles.map Candle.close).getLastD 0
  let trendMatchesPosition :=
    (position.side = PositionSide.long ∧ trend = .bullish) ∨
      (position.side = PositionSide.short ∧ trend = .bearish)
  if ¬trendMatchesPosition ∨ trend = .neutral then
    { symbol := position.symbol, action := "close", confidence := 4/5,
      reason := .trendReversal, psiFrequency := psiFreq, trendStrength := trendStrength }
  else if position.pyramidingLevel < pyramidingLevels then
    let profitPct := (currentPrice - position.entryPrice) / position.entryPrice * 100
    let shouldPyramid : Bool :=
      match position.side with
      | .long => decide (1 < profitPct) && decide (signalAction = 1)
      | .short => decide (1 < -profitPct) && decide (signalAction = 2)
    if shouldPyramid && decide (predictionThreshold < signalConfidence) then
      { symbol := position.symbol, action := "pyramid", confidence := signalConfidence,
        reason := .pyramidingOpportunity (position.pyramidingLevel + 1),
        psiFrequency := psiFreq, trendStrength := trendStrength }
    else createHoldSignal .holdingPosition
  else createHoldSignal .holdingPosition

/-- `PsiFreqScalperStrategy.analyze`.  The calculator parameters
(threshold, window, sensitivity) are the configuration values the engine
also feeds the momentum gate, as wired in `core/engine.py`.  The two
external scoring models (feature extraction plus `predict`) are opaque
collaborators and enter as the oracle functions `trendOracle` (the trend
model's max class probability) and `signalOracle` (the signal model's
predicted class and max class probability). -/
noncomputable def analyze (symbol : String) (psiThreshold : ℚ) (window : ℕ)
    (sensitivity predictionThreshold : ℚ) (pyramidingLevels : ℕ)
    (trendOracle : List Candle → ℝ → ℚ) (signalOracle : List Candle → ℝ → ℕ × ℚ)
    (candles : List Candle) (currentPosition : Option Position) : Signal :=
  if candles.length < window then createHoldSignal .insufficientData
  else
    let psiFreq := calculatePsiFrequency window sensitivity candles
    let trend := detectTrendSwing psiThreshold window sensitivity candles
    let trendStrength := trendOracle candles psiFreq
    let signalPrediction := signalOracle candles psiFreq
    match currentPosition with
    | none =>
      generateEntrySignal symbol psiThreshold predictionThreshold trend psiFreq
        trendStrength signalPrediction.1 signalPrediction.2
    | some position =>
      generateExitOrPyramidSignal position pyramidingLevels predictionThreshold trend
        psiFreq trendStrength signalPrediction.1 signalPrediction.2 candles

/-- C9: with no open position, `analyze` holds with the insufficient-data
reason on fewer than `window` candles, and holds with the low-momentum
reason ("Psi-frequency too low", the spec's "momentum below threshold")
whenever the momentum score is below the configured threshold — whatever
the trend label, the scored class or its confidence (the oracles are
universally quantified). -/
theorem c9_hold_when_momentum_below_threshold (symbol : String) (psiThreshold : ℚ)
    (window : ℕ) (sensitivity predictionThreshold : ℚ) (pyramidingLevels : ℕ)
    (trendOracle : List Candle → ℝ → ℚ) (signalOracle : List Candle → ℝ → ℕ × ℚ)
    (candles : List Candle) :
    (candles.length < window →
      analyze symbol psiThreshold window sensitivity predictionThreshold
        pyramidingLevels trendOracle signalOracle candles none =
        createHoldSignal .insufficientData) ∧
    (window ≤ candles.length →
      calculatePsiFrequency window sensitivity candles < (psiThreshold : ℝ) →
      analyze symbol psiThreshold window sensitivity predictionThreshold
        pyramidingLevels trendOracle signalOracle candles none =
        createHoldSignal .psiFreqTooLow) := by
  constructor
  · intro h
    simp [analyze, h]
  · intro h hpsi
    have hnot : ¬ candles.length < window := by omega
    simp only [analyze, if_neg hnot]
    simp only [generateEntrySignal, if_pos hpsi]

def c9Flat : Candle :=
  { «open» := 100, high := 100, low := 100, close := 100, volume := 10, timeframe := 1 }

theorem c9_hold_when_momentum_below_threshold_witness :
    (([] : List Candle).length < 2 ∧
      analyze "BTC-USDT" (7/10) 2 (3/2) (13/20) 3 (fun _ _ => 0) (fun _ _ => (0, 0))
        [] none = createHoldSignal .insufficientData) ∧
    (2 ≤ [c9Flat, c9Flat].length ∧
      calculatePsiFrequency 2 (3/2) [c9Flat, c9Flat] < ((7/10 : ℚ) : ℝ) ∧
      analyze "BTC-USDT" (7/10) 2 (3/2) (13/20) 3 (fun _ _ => 0) (fun _ _ => (0, 0))
        [c9Flat, c9Flat] none = createHoldSignal .psiFreqTooLow) := by
  have h0 := c9_hold_when_momentum_below_threshold "BTC-USDT" (7/10) 2 (3/2) (13/20) 3
    (fun _ _ => 0) (fun _ _ => (0, 0)) []
  have h2 := c9_hold_when_momentum_below_threshold "BTC-USDT" (7/10) 2 (3/2) (13/20) 3
    (fun _ _ => 0) (fun _ _ => (0, 0)) [c9Flat, c9Flat]
  have hpsi : calculatePsiFrequency 2 (3/2) [c9Flat, c9Flat] = 0 := by
    have hv : ([c9Flat, c9Flat].map Candle.volume).sum = (20 : ℚ) := by
      norm_num [c9Flat]
    norm_num [calculatePsiFrequency, lastWindow, priceMomentum, volumeMomentum,
      waveStrength, npMean, npDiff, c9Flat]
  exact ⟨⟨by simp, h0.1 (by simp)⟩,
    ⟨by simp, by rw [hpsi]; norm_num,
      h2.2 (by simp) (by rw [hpsi]; norm_num)⟩⟩

end PsiFreqScalper
